import Mathlib

set_option maxRecDepth 40000

/-!
Verification of the report-generation core of the ech-test tooling
(`x/tools/ech-test/report/generate_filtered_table.py` and
`x/tools/ech-test/report/unique_domain_analysis.py`).

The Python scripts are shallowly embedded: pandas cell values become
rationals (`ℚ`) with `Option` for NaN, floating-point division results are
modelled by `PFloat` (finite / ±infinity / NaN), `json.loads` is modelled
by an executable recursive-descent JSON parser, and Python's exception
channel is modelled with `Except PyErr`.
-/

namespace EchReport

/-- JSON values, the possible results of Python's `json.loads`.
Python distinguishes int and float; both are modelled as `ℚ` (the
distinction is irrelevant to truthiness, `len`, and equality as used by
the scripts). Objects are association lists; the parser below builds them
with Python-dict semantics (later duplicate key overwrites in place), so
parser-produced objects have pairwise-distinct keys. -/
inductive Json where
  | null : Json
  | bool (b : Bool) : Json
  | num (q : ℚ) : Json
  | str (s : String) : Json
  | arr (elems : List Json) : Json
  | obj (members : List (String × Json)) : Json

/-- Test for the JSON value being a list (Python `list`). -/
def Json.isArr : Json → Bool
  | .arr _ => true
  | _ => false

/-- Python truthiness of a JSON value: `None`, `False`, `0`, `""`, `[]`
and an empty dict are falsy, everything else is truthy. -/
def pyTruthy : Json → Bool
  | .null => false
  | .bool b => b
  | .num q => decide (q ≠ 0)
  | .str s => !s.isEmpty
  | .arr l => !l.isEmpty
  | .obj l => !l.isEmpty

/-- Python `len` on a JSON value: defined for sized values (str, list,
dict), `none` models the `TypeError` raised for numbers, booleans and
`None`. For dicts this counts entries; parser-produced dicts have unique
keys, matching Python's key count. -/
def pyLen : Json → Option Nat
  | .str s => some s.length
  | .arr l => some l.length
  | .obj l => some l.length
  | _ => none

/-! JSON parsing, modelling `json.loads` (strict mode).
The parser is fuel-indexed recursive descent over the character list.
Coverage notes relative to Python's `json` module: `\\u` escapes are not
modelled (such inputs are treated as undecodable), and the strict-mode
rejection of raw control characters inside strings is not enforced; none
of the payloads appearing in the development use either feature. -/

/-- Whitespace skipping, as in the JSON grammar. -/
def skipWs : List Char → List Char
  | c :: cs => if c = ' ' ∨ c = '\t' ∨ c = '\n' ∨ c = '\r' then skipWs cs else c :: cs
  | [] => []

/-- Single-character string escapes accepted by JSON. -/
def escChar (e : Char) : Option Char :=
  if e = 'n' then some '\n'
  else if e = 't' then some '\t'
  else if e = 'r' then some '\r'
  else if e = '"' then some '"'
  else if e = '\\' then some '\\'
  else if e = '/' then some '/'
  else if e = 'b' then some (Char.ofNat 8)
  else if e = 'f' then some (Char.ofNat 12)
  else none

/-- String-literal body parser: consumes up to the closing quote,
returning the decoded string and the rest of the input. -/
def pStringBody (fuel : Nat) (cs : List Char) (acc : List Char) :
    Option (String × List Char) :=
  match fuel with
  | 0 => none
  | fuel + 1 =>
    match cs with
    | [] => none
    | c :: rest =>
      if c = '"' then some (String.mk acc.reverse, rest)
      else if c = '\\' then
        match rest with
        | [] => none
        | e :: rest2 =>
          match escChar e with
          | some ch => pStringBody fuel rest2 (ch :: acc)
          | none => none
      else pStringBody fuel rest (c :: acc)

/-- Decimal digit test. -/
def isDigitCh (c : Char) : Bool := decide ('0' ≤ c ∧ c ≤ '9')

/-- Leading decimal digits of the input. -/
def takeDigits : List Char → (List Char × List Char)
  | [] => ([], [])
  | c :: cs =>
    if isDigitCh c then
      let (ds, rest) := takeDigits cs
      (c :: ds, rest)
    else ([], c :: cs)

/-- Numeric value of a digit string. -/
def natOfDigits (ds : List Char) : Nat :=
  ds.foldl (fun n c => 10 * n + (c.toNat - 48)) 0

/-- Fraction part: a `.` must be followed by at least one digit; absent
fraction yields no digits. -/
def pFrac : List Char → Option (List Char × List Char)
  | '.' :: r =>
    match takeDigits r with
    | ([], _) => none
    | (fs, r2) => some (fs, r2)
  | cs => some ([], cs)

/-- Exponent tail after `e`/`E`: optional sign, then one or more digits. -/
def pExpTail (r : List Char) : Option (ℤ × List Char) :=
  let (eneg, r1) :=
    match r with
    | '-' :: rr => (true, rr)
    | '+' :: rr => (false, rr)
    | _ => (false, r)
  match takeDigits r1 with
  | ([], _) => none
  | (es, r2) =>
    let e : ℤ := (natOfDigits es : ℤ)
    some (if eneg then -e else e, r2)

/-- Optional exponent part. -/
def pExp : List Char → Option (ℤ × List Char)
  | 'e' :: r => pExpTail r
  | 'E' :: r => pExpTail r
  | cs => some (0, cs)

/-- Number parser following the JSON grammar
`-?(0|[1-9][0-9]*)(\.[0-9]+)?([eE][-+]?[0-9]+)?`; leading zeros are
rejected, as in Python. The value is returned exactly as a rational. -/
def pNumber (cs : List Char) : Option (ℚ × List Char) :=
  let (neg, cs1) :=
    match cs with
    | '-' :: rest => (true, rest)
    | _ => (false, cs)
  match takeDigits cs1 with
  | ([], _) => none
  | (d :: ds, rest1) =>
    if d = '0' ∧ ds ≠ [] then none
    else
      match pFrac rest1 with
      | none => none
      | some (fracDigits, rest2) =>
        match pExp rest2 with
        | none => none
        | some (expVal, rest3) =>
          let mantissa : ℚ :=
            (natOfDigits (d :: ds) : ℚ) +
              (natOfDigits fracDigits : ℚ) / ((10 : ℚ) ^ fracDigits.length)
          let value : ℚ := mantissa * (10 : ℚ) ^ expVal
          some (if neg then -value else value, rest3)

/-- Python-dict insertion: an existing key's value is replaced in place,
a new key is appended; models duplicate-key handling of `json.loads`. -/
def dictInsert (kvs : List (String × Json)) (k : String) (v : Json) :
    List (String × Json) :=
  if kvs.any (fun kv => kv.1 = k) then
    kvs.map (fun kv => if kv.1 = k then (k, v) else kv)
  else kvs ++ [(k, v)]

mutual

/-- JSON value parser (fuel-indexed). -/
def pValue (fuel : Nat) (cs : List Char) : Option (Json × List Char) :=
  match fuel with
  | 0 => none
  | fuel + 1 =>
    match skipWs cs with
    | 'n' :: 'u' :: 'l' :: 'l' :: rest => some (.null, rest)
    | 't' :: 'r' :: 'u' :: 'e' :: rest => some (.bool true, rest)
    | 'f' :: 'a' :: 'l' :: 's' :: 'e' :: rest => some (.bool false, rest)
    | '"' :: rest =>
      match pStringBody (rest.length + 1) rest [] with
      | some (s, rest2) => some (.str s, rest2)
      | none => none
    | '[' :: rest =>
      match skipWs rest with
      | ']' :: rest2 => some (.arr [], rest2)
      | _ =>
        match pElems fuel rest with
        | some (xs, rest2) => some (.arr xs, rest2)
        | none => none
    | '\x7b' :: rest =>
      match skipWs rest with
      | '\x7d' :: rest2 => some (.obj [], rest2)
      | _ =>
        match pMembers fuel rest [] with
        | some (kvs, rest2) => some (.obj kvs, rest2)
        | none => none
    | other =>
      match pNumber other with
      | some (q, rest) => some (.num q, rest)
      | none => none

/-- Comma-separated list elements, then the closing bracket. -/
def pElems (fuel : Nat) (cs : List Char) : Option (List Json × List Char) :=
  match fuel with
  | 0 => none
  | fuel + 1 =>
    match pValue fuel cs with
    | none => none
    | some (v, rest) =>
      match skipWs rest with
      | ',' :: rest2 =>
        match pElems fuel rest2 with
        | some (xs, rest3) => some (v :: xs, rest3)
        | none => none
      | ']' :: rest2 => some ([v], rest2)
      | _ => none

/-- Comma-separated object members, then the closing brace. -/
def pMembers (fuel : Nat) (cs : List Char) (acc : List (String × Json)) :
    Option (List (String × Json) × List Char) :=
  match fuel with
  | 0 => none
  | fuel + 1 =>
    match skipWs cs with
    | '"' :: rest =>
      match pStringBody (rest.length + 1) rest [] with
      | none => none
      | some (k, rest2) =>
        match skipWs rest2 with
        | ':' :: rest3 =>
          match pValue fuel rest3 with
          | none => none
          | some (v, rest4) =>
            match skipWs rest4 with
            | ',' :: rest5 => pMembers fuel rest5 (dictInsert acc k v)
            | '\x7d' :: rest5 => some (dictInsert acc k v, rest5)
            | _ => none
        | _ => none
    | _ => none

end

/-- Python `json.loads` on a string: decode one JSON value and require the
remainder to be whitespace; `none` models `json.JSONDecodeError`. -/
def json_loads (s : String) : Option Json :=
  match pValue (2 * s.data.length + 2) s.data with
  | some (v, rest) => if skipWs rest = [] then some v else none
  | none => none

/-! Python exception channel and pandas cell values. -/

/-- Exceptions that the modelled code paths can raise. -/
inductive PyErr where
  | typeError : PyErr
  | attributeError : PyErr
  | jsonDecodeError : PyErr
deriving DecidableEq, Repr

/-- Value of the `answers` CSV cell as pandas presents it: a string, or
NaN for a missing field. -/
inductive Cell where
  | str (s : String) : Cell
  | nan : Cell
deriving DecidableEq, Repr

/-- Python `json.loads` applied to a cell: a NaN (float) argument raises
`TypeError`; an undecodable string raises `JSONDecodeError`. -/
def json_loads_cell : Cell → Except PyErr Json
  | .str s =>
    match json_loads s with
    | some v => .ok v
    | none => .error .jsonDecodeError
  | .nan => .error .typeError

/-- Embedding of `parse_answers` from `generate_filtered_table.py`:
`try: parsed = json.loads(answers_str); return parsed if parsed else []
except json.JSONDecodeError: return []`. A falsy decode result is replaced
by the empty list; a truthy result (list or not) is returned unchanged. -/
def parse_answers (s : String) : Json :=
  match json_loads s with
  | some v => if pyTruthy v then v else .arr []
  | none => .arr []

/-- Cell-level `parse_answers`: the `except` clause catches only
`json.JSONDecodeError`, so the `TypeError` raised by `json.loads` on a
NaN cell propagates to the caller. -/
def parse_answers_cell : Cell → Except PyErr Json
  | .str s => .ok (parse_answers s)
  | .nan => .error .typeError

/-! Embedding of `generate_filtered_table.py` (the Aggregator and
Ranker/Filter of the spec). -/

/-- One row of the input CSV. `duration_ms` is a rational (modelling the
float), `rank` is optional (NaN cell possible), `answers` is the raw
string payload. Rows whose `answers` cell is missing are outside this
model (see `parse_answers_cell` for that case). -/
structure Row where
  domain : String
  rank : Option ℚ
  query_type : String
  duration_ms : ℚ
  rcode : String
  answers : String
deriving DecidableEq, Repr

/-- Line 16: rows whose `query_type` is `A` or `HTTPS`. -/
def filtered_rows (rows : List Row) : List Row :=
  rows.filter (fun r => r.query_type == "A" || r.query_type == "HTTPS")

/-- Lines 33-40, `has_valid_answer`: for `HTTPS` and `A` rows,
`len(parsed_answers) > 0 and rcode == 'NOERROR'`; other query types give
`False`. The `none` result models the `TypeError` raised by `len` when
the parsed payload is a number, boolean or `None` (Python evaluates
`len` before the `and`). -/
def has_valid_answerE (r : Row) : Option Bool :=
  if r.query_type == "HTTPS" then
    (pyLen (parse_answers r.answers)).map (fun n => decide (0 < n) && (r.rcode == "NOERROR"))
  else if r.query_type == "A" then
    (pyLen (parse_answers r.answers)).map (fun n => decide (0 < n) && (r.rcode == "NOERROR"))
  else some false

/-- Durations of the `(domain, query_type)` group over the filtered
frame (line 45). Note the source groups the unfiltered-by-success frame:
`has_answer` is computed on line 42 but never consulted afterwards. -/
def groupDurations (rows : List Row) (d qt : String) : List ℚ :=
  (filtered_rows rows).filterMap
    (fun r => if r.domain == d && r.query_type == qt then some r.duration_ms else none)

/-- Pandas `Series.median`: sort, take the middle element (odd count) or
the mean of the two central elements (even count); empty gives NaN
(`none`). -/
def pyMedian (l : List ℚ) : Option ℚ :=
  let s := l.mergeSort (fun a b => decide (a ≤ b))
  let n := s.length
  if n = 0 then none
  else if n % 2 = 1 then some (s.getD (n / 2) 0)
  else some ((s.getD (n / 2 - 1) 0 + s.getD (n / 2) 0) / 2)

/-- Pandas `Series.min` over a group; empty gives NaN (`none`). -/
def pyMin (l : List ℚ) : Option ℚ :=
  match l with
  | [] => none
  | x :: xs => some (xs.foldl (fun a b => if b < a then b else a) x)

/-- Pandas `Series.max` over a group; empty gives NaN (`none`). -/
def pyMax (l : List ℚ) : Option ℚ :=
  match l with
  | [] => none
  | x :: xs => some (xs.foldl (fun a b => if a < b then b else a) x)

/-- Element insertion keeping the first occurrence, as a Python `set.add`
or a first-occurrence deduplication step. -/
def insertIfAbsent [DecidableEq α] (l : List α) (x : α) : List α :=
  if x ∈ l then l else l ++ [x]

/-- First-occurrence deduplication, as pandas `drop_duplicates` /
`nunique`. -/
def dedupKeepFirst [DecidableEq α] (l : List α) : List α :=
  l.foldl insertIfAbsent []

/-- Line 19, `domain_ranks`: the deduplicated `(domain, rank)` pairs of
the full frame, in first-occurrence order (pandas `drop_duplicates`
treats equal NaNs as duplicates, matching `Option` equality here). -/
def domain_ranks (rows : List Row) : List (String × Option ℚ) :=
  dedupKeepFirst (rows.map (fun r => (r.domain, r.rank)))

/-- Ranks joined to a domain: all `rank` values paired with `d` in
`domain_ranks` (a pandas join replicates a left row once per matching
right row). -/
def ranksOf (rows : List Row) (d : String) : List (Option ℚ) :=
  ((domain_ranks rows).filter (fun p => p.1 == d)).map (fun p => p.2)

/-- Index of the unstacked groupby: the distinct domains of the filtered
frame, in sorted order (pandas `groupby` sorts group keys). -/
def tableDomains (rows : List Row) : List String :=
  (dedupKeepFirst ((filtered_rows rows).map (fun r => r.domain))).mergeSort
    (fun a b => decide (a ≤ b))

/-- Float-division result: finite, ±infinity, or NaN. -/
inductive PFloat where
  | fin (q : ℚ) : PFloat
  | inf : PFloat
  | ninf : PFloat
  | nan : PFloat
deriving DecidableEq, Repr

/-- IEEE-style division of possibly-NaN operands, as numpy evaluates
`median_HTTPS / median_A`: a NaN operand propagates; division by zero
gives ±infinity (or NaN for 0/0). -/
def pdiv : Option ℚ → Option ℚ → PFloat
  | some x, some y =>
    if y ≠ 0 then .fin (x / y)
    else if 0 < x then .inf
    else if x < 0 then .ninf
    else .nan
  | _, _ => .nan

/-- Subtraction of possibly-NaN operands (NaN propagates). -/
def optSub : Option ℚ → Option ℚ → Option ℚ
  | some x, some y => some (x - y)
  | _, _ => none

/-- One row of `merged_durations` (lines 51-63): the per-domain merged
statistics with rank, difference and ratio columns. A missing group
(unstack hole) is NaN, modelled as `none`. -/
structure DomainComparison where
  domain : String
  rank : Option ℚ
  median_A : Option ℚ
  median_HTTPS : Option ℚ
  min_HTTPS : Option ℚ
  max_HTTPS : Option ℚ
  duration_diff : Option ℚ
  ratio : PFloat
deriving DecidableEq, Repr

/-- The `merged_durations` row for domain `d` with joined rank `rk`. -/
def mkComparison (rows : List Row) (d : String) (rk : Option ℚ) : DomainComparison :=
  let mA := pyMedian (groupDurations rows d "A")
  let mH := pyMedian (groupDurations rows d "HTTPS")
  { domain := d
    rank := rk
    median_A := mA
    median_HTTPS := mH
    min_HTTPS := pyMin (groupDurations rows d "HTTPS")
    max_HTTPS := pyMax (groupDurations rows d "HTTPS")
    duration_diff := optSub mH mA
    ratio := pdiv mH mA }

/-- Lines 51-63: one merged row per domain of the filtered frame, one
copy per matching `domain_ranks` entry (pandas join semantics). -/
def mergedDurations (rows : List Row) : List DomainComparison :=
  (tableDomains rows).flatMap (fun d => (ranksOf rows d).map (fun rk => mkComparison rows d rk))

/-- Line 66 filter: `duration_diff > 50`; a NaN difference compares
false and is dropped. -/
def diffFilter (l : List DomainComparison) : List DomainComparison :=
  l.filter (fun c =>
    match c.duration_diff with
    | some q => decide (50 < q)
    | none => false)

/-- Line 69 sort: descending on `min_HTTPS`, NaN keys last
(`na_position='last'`). The source delegates to pandas `sort_values`
with the default `kind='quicksort'` (numpy introsort), whose ordering
among equal keys is not specified by the repository's code; the order
among ties here is a modelling choice (stable), and the theorems below
rely only on membership consequences that are insensitive to it. -/
def sortByMinHttpsDesc (l : List DomainComparison) : List DomainComparison :=
  l.mergeSort (fun a b =>
    match a.min_HTTPS, b.min_HTTPS with
    | some x, some y => decide (y ≤ x)
    | some _, none => true
    | none, some _ => false
    | none, none => true)

/-- Lines 66-69: the final reportable table of
`generate_filtered_table.py`. -/
def filteredTable (rows : List Row) : List DomainComparison :=
  sortByMinHttpsDesc (diffFilter (mergedDurations rows))

/-- Completion condition of the script: line 42 evaluates
`has_valid_answer` (and hence `len`) on every filtered row, and
lines 52-55 index the unstacked frame by both the `A` and the `HTTPS`
column, which requires at least one row of each type; when these fail
the script raises (`TypeError` resp. `KeyError`) and produces nothing. -/
def tableRuns (rows : List Row) : Bool :=
  ((filtered_rows rows).all (fun r => (has_valid_answerE r).isSome)) &&
    ((filtered_rows rows).any (fun r => r.query_type == "A")) &&
    ((filtered_rows rows).any (fun r => r.query_type == "HTTPS"))

/-! Embedding of `unique_domain_analysis.py` (the Feature-Usage Reducer
of the spec). Its input `rows` is the concatenation of all loaded
datasets (line 28). -/

/-- Line 31, `has_answer`: the raw `answers` string differs from the
literal `'[]'`. No JSON decoding and no `rcode` check take place here. -/
def has_answer_ua (r : Row) : Bool :=
  r.answers != "[]"

/-- Line 30: the `HTTPS` rows of the combined frame. -/
def httpsRows (rows : List Row) : List Row :=
  rows.filter (fun r => r.query_type == "HTTPS")

/-- Rows iterated by the reducer (lines 34 and 44): `HTTPS` rows whose
`answers` string is not `'[]'`. -/
def supportRows (rows : List Row) : List Row :=
  (httpsRows rows).filter has_answer_ua

/-- Line 34: the distinct domains having an HTTPS row with `has_answer`
(pandas `nunique` counts distinct values). -/
def totalHttpsDomains (rows : List Row) : List String :=
  dedupKeepFirst ((supportRows rows).map (fun r => r.domain))

/-- Line 34, `total_unique_domains_with_https_rr`. -/
def total_unique_domains_with_https_rr (rows : List Row) : Nat :=
  (totalHttpsDomains rows).length

/-- Python `for answer in answers`: lists iterate their elements, dicts
their keys, strings their characters; other values raise `TypeError`. -/
def pyIter : Json → Except PyErr (List Json)
  | .arr xs => .ok xs
  | .obj kvs => .ok (kvs.map (fun kv => Json.str kv.1))
  | .str s => .ok (s.data.map (fun c => Json.str (String.singleton c)))
  | _ => .error .typeError

/-- Substring test over character lists (Python `in` on strings). -/
def hasSubstring (sub : List Char) : List Char → Bool
  | [] => sub.isEmpty
  | c :: t => sub.isPrefixOf (c :: t) || hasSubstring sub t

/-- Last value bound to a key in an association list (Python dict lookup;
the parser keeps keys unique, so first and last coincide for parsed
objects). -/
def dictGet (kvs : List (String × Json)) (k : String) : Option Json :=
  (kvs.filter (fun kv => kv.1 == k)).getLast?.map (fun kv => kv.2)

/-- Lines 48-49 applied to one answer element: `if 'params' in answer:
for param in answer['params'].keys()`. Python semantics by value shape:
dict membership tests keys and `.keys()` on a non-dict value raises
`AttributeError`; `'params' in <str>` is a substring test and indexing a
string with a string raises `TypeError`; list membership compares
elements, and indexing a list with a string raises `TypeError`;
membership on numbers/booleans/`None` raises `TypeError`. -/
def answerParams : Json → Except PyErr (List String)
  | .obj kvs =>
    if kvs.any (fun kv => kv.1 == "params") then
      match dictGet kvs "params" with
      | some (.obj pkvs) => .ok (pkvs.map (fun kv => kv.1))
      | some _ => .error .attributeError
      | none => .ok []
    else .ok []
  | .str s =>
    if hasSubstring "params".data s.data then .error .typeError else .ok []
  | .arr xs =>
    if xs.any (fun x =>
        match x with
        | .str s => s == "params"
        | _ => false) then .error .typeError
    else .ok []
  | _ => .error .typeError

/-- Parameter names contributed by one row (lines 45-53): `json.loads`
then the nested loops; only `json.JSONDecodeError` is caught (the row
then contributes nothing), every other exception propagates. -/
def rowParams (r : Row) : Except PyErr (List String) :=
  match json_loads r.answers with
  | none => .ok []
  | some answers =>
    match pyIter answers with
    | .error e => .error e
    | .ok elems => elems.foldlM (fun acc a => (answerParams a).map (fun ps => acc ++ ps)) []

/-- Line 37, `param_domains`: the recognized parameter names, each with
an initially empty domain set (sets are modelled as first-occurrence
lists; only membership and size are consumed). -/
def paramSetsInit : List (String × List String) :=
  [("alpn", []), ("ipv4hint", []), ("ipv6hint", []), ("ech", [])]

/-- Lines 50-51: `if param in param_domains: param_domains[param].add(domain)` —
only entries for an existing key are updated. -/
def addParamDomain (sets : List (String × List String)) (p d : String) :
    List (String × List String) :=
  sets.map (fun q => if q.1 == p then (q.1, insertIfAbsent q.2 d) else q)

/-- Effect of one row of the iteration (lines 44-53) on the parameter
sets. -/
def processRow (sets : List (String × List String)) (r : Row) :
    Except PyErr (List (String × List String)) :=
  (rowParams r).map (fun ps => ps.foldl (fun s p => addParamDomain s p r.domain) sets)

/-- Lines 37-53: the parameter → unique-domain sets accumulated over the
`has_answer` HTTPS rows; an uncaught exception aborts the script. -/
def paramDomainSets (rows : List Row) : Except PyErr (List (String × List String)) :=
  (supportRows rows).foldlM processRow paramSetsInit

/-- Domain set recorded for parameter `p` (Python `param_domains[p]`). -/
def getParamSet (sets : List (String × List String)) (p : String) : Option (List String) :=
  (sets.find? (fun q => q.1 == p)).map (fun q => q.2)

/-- Spec-side contrast definition, following the spec's words (4.2 and
the DomainStat invariant): the durations of the `(domain, query_type)`
group restricted to records satisfying `has_valid_answer`. Used only to
exhibit how the source's statistics diverge from it. -/
def specSuccessfulDurations (rows : List Row) (d qt : String) : List ℚ :=
  (filtered_rows rows).filterMap
    (fun r =>
      if r.domain == d && r.query_type == qt && (has_valid_answerE r).getD false then
        some r.duration_ms
      else none)

/-! Concrete inputs used by the closed theorems below. -/

/-- Successful `A` record for domain `d` (10 ms). -/
def c1Good : Row :=
  { domain := "d", rank := some 1, query_type := "A", duration_ms := 10,
    rcode := "NOERROR", answers := "[\x22x\x22]" }

/-- Failed `A` record for domain `d`: SERVFAIL, empty answer list. -/
def c1Bad1 : Row :=
  { domain := "d", rank := some 1, query_type := "A", duration_ms := 1000,
    rcode := "SERVFAIL", answers := "[]" }

/-- Second failed `A` record for domain `d`. -/
def c1Bad2 : Row :=
  { domain := "d", rank := some 1, query_type := "A", duration_ms := 2000,
    rcode := "SERVFAIL", answers := "[]" }

/-- Successful `HTTPS` record for domain `d` (keeps the script from the
unstack `KeyError`). -/
def c1Http : Row :=
  { domain := "d", rank := some 1, query_type := "HTTPS", duration_ms := 40,
    rcode := "NOERROR", answers := "[\x22x\x22]" }

/-- Input with one successful and two failed `A` measurements. -/
def c1Rows : List Row := [c1Good, c1Bad1, c1Bad2, c1Http]

/-- HTTPS record whose `rcode` is a failure but whose raw `answers`
string is a non-empty JSON list carrying an `ech` parameter. -/
def c2Row : Row :=
  { domain := "d", rank := some 1, query_type := "HTTPS", duration_ms := 0,
    rcode := "SERVFAIL", answers := "[\x7b\x22params\x22:\x7b\x22ech\x22:\x22x\x22\x7d\x7d]" }

/-- Record whose `answers` payload decodes to a JSON string (a truthy
non-list value). -/
def c3Row : Row :=
  { domain := "e", rank := some 1, query_type := "HTTPS", duration_ms := 5,
    rcode := "NOERROR", answers := "\x22abc\x22" }

/-- Domain `a` has only an `A` record. -/
def c5RowA : Row :=
  { domain := "a", rank := some 1, query_type := "A", duration_ms := 10,
    rcode := "NOERROR", answers := "[]" }

/-- Domain `b` has only an `HTTPS` record. -/
def c5RowB : Row :=
  { domain := "b", rank := some 2, query_type := "HTTPS", duration_ms := 20,
    rcode := "NOERROR", answers := "[]" }

/-- Input whose two domains each have records of a single query type. -/
def c5Rows : List Row := [c5RowA, c5RowB]

/-- Record giving domain `z` a zero `A` median. -/
def c6RowA : Row :=
  { domain := "z", rank := some 1, query_type := "A", duration_ms := 0,
    rcode := "NOERROR", answers := "[\x22x\x22]" }

/-- Record giving domain `z` an `HTTPS` median of 100 ms. -/
def c6RowH : Row :=
  { domain := "z", rank := some 1, query_type := "HTTPS", duration_ms := 100,
    rcode := "NOERROR", answers := "[\x22x\x22]" }

/-- Input whose single comparison row has `median_A = 0` and a large
positive difference. -/
def c6Rows : List Row := [c6RowA, c6RowH]

/-- Ordinary `A` record for the witness input (domain `w`). -/
def cwRowA : Row :=
  { domain := "w", rank := some 1, query_type := "A", duration_ms := 10,
    rcode := "NOERROR", answers := "[\x22x\x22]" }

/-- Ordinary `HTTPS` record for the witness input (domain `w`). -/
def cwRowH : Row :=
  { domain := "w", rank := some 1, query_type := "HTTPS", duration_ms := 100,
    rcode := "NOERROR", answers := "[\x22x\x22]" }

/-- Witness input: one domain with both query types, difference 90 ms. -/
def cwRows : List Row := [cwRowA, cwRowH]

/-- The comparison row the pipeline produces for `cwRows`. -/
def cwComparison : DomainComparison :=
  { domain := "w", rank := some 1, median_A := some 10, median_HTTPS := some 100,
    min_HTTPS := some 100, max_HTTPS := some 100, duration_diff := some 90,
    ratio := .fin 10 }

/-- HTTPS record for domain `x` exhibiting the `ech` parameter. -/
def c9Row : Row :=
  { domain := "x", rank := some 1, query_type := "HTTPS", duration_ms := 1,
    rcode := "NOERROR", answers := "[\x7b\x22params\x22:\x7b\x22ech\x22:\x22a\x22\x7d\x7d]" }

/-- Parameter sets the reducer produces for `[c9Row]`. -/
def c9Sets : List (String × List String) :=
  [("alpn", []), ("ipv4hint", []), ("ipv6hint", []), ("ech", ["x"])]

/-! Auxiliary lemmas about the set-as-list operations. -/

theorem mem_insertIfAbsent [DecidableEq α] (l : List α) (x a : α) :
    a ∈ insertIfAbsent l x ↔ a ∈ l ∨ a = x := by
  unfold insertIfAbsent
  by_cases hx : x ∈ l
  · simp only [if_pos hx]
    constructor
    · exact Or.inl
    · rintro (h | rfl)
      · exact h
      · exact hx
  · simp [if_neg hx]

theorem nodup_insertIfAbsent [DecidableEq α] (l : List α) (x : α) (h : l.Nodup) :
    (insertIfAbsent l x).Nodup := by
  unfold insertIfAbsent
  by_cases hx : x ∈ l
  · simpa [if_pos hx]
  · simp only [if_neg hx]
    simpa [List.nodup_append] using ⟨h, fun hmem => hx hmem⟩

theorem insertIfAbsent_self [DecidableEq α] (l : List α) (x : α) :
    x ∈ insertIfAbsent l x := by
  rw [mem_insertIfAbsent]
  exact Or.inr rfl

theorem insertIfAbsent_idem [DecidableEq α] (l : List α) (x : α) :
    insertIfAbsent (insertIfAbsent l x) x = insertIfAbsent l x := by
  unfold insertIfAbsent
  by_cases hx : x ∈ l
  · simp [if_pos hx]
  · simp [if_neg hx]

theorem mem_foldl_insertIfAbsent [DecidableEq α] (l acc : List α) (a : α) :
    a ∈ l.foldl insertIfAbsent acc ↔ a ∈ acc ∨ a ∈ l := by
  induction l generalizing acc with
  | cons y ys ih =>
    simp only [List.foldl_cons, ih (insertIfAbsent acc y), mem_insertIfAbsent,
      List.mem_cons]
    tauto
  | nil => simp

theorem nodup_foldl_insertIfAbsent [DecidableEq α] (l acc : List α) (h : acc.Nodup) :
    (l.foldl insertIfAbsent acc).Nodup := by
  induction l generalizing acc with
  | nil => simpa
  | cons x xs ih =>
    exact ih (insertIfAbsent acc x) (nodup_insertIfAbsent acc x h)

theorem mem_dedupKeepFirst [DecidableEq α] (l : List α) (a : α) :
    a ∈ dedupKeepFirst l ↔ a ∈ l := by
  unfold dedupKeepFirst
  rw [mem_foldl_insertIfAbsent]
  simp

theorem nodup_dedupKeepFirst [DecidableEq α] (l : List α) :
    (dedupKeepFirst l).Nodup := by
  exact nodup_foldl_insertIfAbsent l [] List.nodup_nil

/-! Characterization of the reducer's accumulation fold. -/

theorem except_bind_ok {ε α β : Type} (x : α) (g : α → Except ε β) :
    (Except.ok x >>= g : Except ε β) = g x := rfl

theorem except_bind_error {ε α β : Type} (e : ε) (g : α → Except ε β) :
    (Except.error e >>= g : Except ε β) = Except.error e := rfl

theorem getParamSet_cons (k : String) (vs : List String)
    (rest : List (String × List String)) (q : String) :
    getParamSet ((k, vs) :: rest) q = if k = q then some vs else getParamSet rest q := by
  unfold getParamSet
  by_cases h : k = q
  · rw [List.find?_cons_of_pos _ (by simpa using h), if_pos h, Option.map_some']
  · rw [List.find?_cons_of_neg _ (by simpa using h), if_neg h]

theorem addParamDomain_cons (k : String) (vs : List String)
    (rest : List (String × List String)) (p d : String) :
    addParamDomain ((k, vs) :: rest) p d =
      (if k = p then (k, insertIfAbsent vs d) else (k, vs)) :: addParamDomain rest p d := by
  unfold addParamDomain
  rw [List.map_cons]
  by_cases h : k = p <;> simp [h]

theorem getParamSet_addParamDomain (sets : List (String × List String)) (p d q : String) :
    getParamSet (addParamDomain sets p d) q =
      (getParamSet sets q).map (fun ds => if q = p then insertIfAbsent ds d else ds) := by
  induction sets with
  | nil => rfl
  | cons kv rest ih =>
    obtain ⟨k, vs⟩ := kv
    rw [addParamDomain_cons]
    by_cases hkp : k = p
    · rw [if_pos hkp, getParamSet_cons, getParamSet_cons]
      by_cases hkq : k = q
      · have hqp : q = p := hkq ▸ hkp
        rw [if_pos hkq, if_pos hkq, Option.map_some', if_pos hqp]
      · rw [if_neg hkq, if_neg hkq, ih]
    · rw [if_neg hkp, getParamSet_cons, getParamSet_cons]
      by_cases hkq : k = q
      · have hqp : ¬ q = p := fun h => hkp (hkq.trans h)
        rw [if_pos hkq, if_pos hkq, Option.map_some', if_neg hqp]
      · rw [if_neg hkq, if_neg hkq, ih]

theorem getParamSet_foldl_add (ps : List String) (sets : List (String × List String))
    (d q : String) :
    getParamSet (ps.foldl (fun s p => addParamDomain s p d) sets) q =
      (getParamSet sets q).map (fun ds => if q ∈ ps then insertIfAbsent ds d else ds) := by
  induction ps generalizing sets with
  | nil =>
    rw [List.foldl_nil]
    cases getParamSet sets q <;> simp
  | cons p ps ih =>
    rw [List.foldl_cons, ih, getParamSet_addParamDomain]
    cases h : getParamSet sets q with
    | none => rfl
    | some ds =>
      simp only [Option.map_some']
      congr 1
      by_cases hqp : q = p
      · subst hqp
        by_cases hqps : q ∈ ps <;>
          simp [hqps, insertIfAbsent_idem, List.mem_cons]
      · by_cases hqps : q ∈ ps <;> simp [hqps, hqp, List.mem_cons]

theorem processRow_ok (sets sets2 : List (String × List String)) (r : Row)
    (h : processRow sets r = .ok sets2) :
    ∃ ps, rowParams r = .ok ps ∧
      ∀ q, getParamSet sets2 q =
        (getParamSet sets q).map
          (fun ds => if q ∈ ps then insertIfAbsent ds r.domain else ds) := by
  unfold processRow at h
  cases hrp : rowParams r with
  | error e => rw [hrp] at h; exact absurd h (by simp [Except.map])
  | ok ps =>
    rw [hrp] at h
    simp only [Except.map] at h
    obtain rfl : ps.foldl (fun s p => addParamDomain s p r.domain) sets = sets2 :=
      Except.ok.inj h
    exact ⟨ps, rfl, fun q => getParamSet_foldl_add ps sets r.domain q⟩

theorem foldlM_processRow_spec (l : List Row) (acc res : List (String × List String))
    (h : List.foldlM processRow acc l = .ok res) (q : String) (ds : List String)
    (hacc : getParamSet acc q = some ds) :
    ∃ ds2, getParamSet res q = some ds2 ∧
      (∀ d, d ∈ ds2 ↔
        d ∈ ds ∨ ∃ r, r ∈ l ∧ ∃ ps, rowParams r = .ok ps ∧ q ∈ ps ∧ r.domain = d) ∧
      (ds.Nodup → ds2.Nodup) := by
  induction l generalizing acc ds with
  | nil =>
    simp only [List.foldlM_nil, pure, Except.pure, Except.ok.injEq] at h
    subst h
    exact ⟨ds, hacc, by simp, id⟩
  | cons r rest ih =>
    rw [List.foldlM_cons] at h
    cases hpr : processRow acc r with
    | error e =>
      rw [hpr, except_bind_error] at h
      cases h
    | ok acc2 =>
      rw [hpr, except_bind_ok] at h
      obtain ⟨ps, hps, hget⟩ := processRow_ok acc acc2 r hpr
      have hacc2 : getParamSet acc2 q =
          some (if q ∈ ps then insertIfAbsent ds r.domain else ds) := by
        rw [hget q, hacc, Option.map_some']
      obtain ⟨ds2, hds2, hmem, hnd⟩ := ih acc2 h (if q ∈ ps then insertIfAbsent ds r.domain else ds) hacc2
      refine ⟨ds2, hds2, ?_, ?_⟩
      · intro d
        rw [hmem d]
        by_cases hq : q ∈ ps
        · simp only [hq, if_true, mem_insertIfAbsent]
          constructor
          · rintro ((hd | rfl) | ⟨r2, hr2, hrest2⟩)
            · exact Or.inl hd
            · exact Or.inr ⟨r, List.mem_cons_self r rest, ps, hps, hq, rfl⟩
            · exact Or.inr ⟨r2, List.mem_cons_of_mem r hr2, hrest2⟩
          · rintro (hd | ⟨r2, hr2, ps2, hps2, hq2, hdom⟩)
            · exact Or.inl (Or.inl hd)
            · rcases List.mem_cons.mp hr2 with rfl | hr2
              · rw [hps] at hps2
                obtain rfl : ps = ps2 := Except.ok.inj hps2
                exact Or.inl (Or.inr hdom.symm)
              · exact Or.inr ⟨r2, hr2, ps2, hps2, hq2, hdom⟩
        · simp only [hq, if_false]
          constructor
          · rintro (hd | ⟨r2, hr2, hrest2⟩)
            · exact Or.inl hd
            · exact Or.inr ⟨r2, List.mem_cons_of_mem r hr2, hrest2⟩
          · rintro (hd | ⟨r2, hr2, ps2, hps2, hq2, hdom⟩)
            · exact Or.inl hd
            · rcases List.mem_cons.mp hr2 with rfl | hr2
              · rw [hps] at hps2
                obtain rfl : ps = ps2 := Except.ok.inj hps2
                exact absurd hq2 hq
              · exact Or.inr ⟨r2, hr2, ps2, hps2, hq2, hdom⟩
      · intro hnds
        apply hnd
        by_cases hq : q ∈ ps
        · simpa [if_pos hq] using nodup_insertIfAbsent ds r.domain hnds
        · simpa [if_neg hq] using hnds

theorem foldlM_processRow_all_ok (l : List Row) (acc res : List (String × List String))
    (h : List.foldlM processRow acc l = .ok res) :
    ∀ r ∈ l, ∃ ps, rowParams r = .ok ps := by
  induction l generalizing acc with
  | nil => intro r hr; cases hr
  | cons r2 rest ih =>
    rw [List.foldlM_cons] at h
    cases hpr : processRow acc r2 with
    | error e =>
      rw [hpr, except_bind_error] at h
      cases h
    | ok acc2 =>
      rw [hpr, except_bind_ok] at h
      intro r hr
      rcases List.mem_cons.mp hr with rfl | hr
      · obtain ⟨ps, hps, _⟩ := processRow_ok acc acc2 r hpr
        exact ⟨ps, hps⟩
      · exact ih acc2 h r hr

theorem foldlM_processRow_total (l : List Row)
    (hl : ∀ r ∈ l, ∃ ps, rowParams r = .ok ps) :
    ∀ acc, ∃ res, List.foldlM processRow acc l = .ok res := by
  induction l with
  | nil => intro acc; exact ⟨acc, rfl⟩
  | cons r rest ih =>
    intro acc
    obtain ⟨ps, hps⟩ := hl r (List.mem_cons_self r rest)
    obtain ⟨res, hres⟩ := ih (fun r2 hr2 => hl r2 (List.mem_cons_of_mem r hr2))
      (ps.foldl (fun s p => addParamDomain s p r.domain) acc)
    refine ⟨res, ?_⟩
    rw [List.foldlM_cons]
    have hpr : processRow acc r =
        .ok (ps.foldl (fun s p => addParamDomain s p r.domain) acc) := by
      unfold processRow
      rw [hps]
      rfl
    rw [hpr, except_bind_ok]
    exact hres

theorem getParamSet_init_of_mem (p : String)
    (hp : p ∈ paramSetsInit.map (fun q => q.1)) :
    getParamSet paramSetsInit p = some [] := by
  simp only [paramSetsInit, List.map_cons, List.map_nil, List.mem_cons,
    List.not_mem_nil, or_false] at hp
  rcases hp with rfl | rfl | rfl | rfl <;> rfl

/-! Auxiliary lemmas about the table pipeline. -/

theorem pyMedian_nil : pyMedian ([] : List ℚ) = none := by with_unfolding_all rfl

theorem pyMedian_some_ne_nil (l : List ℚ) (q : ℚ) (h : pyMedian l = some q) :
    l ≠ [] := by
  intro hl
  rw [hl, pyMedian_nil] at h
  cases h

theorem exists_row_of_groupDurations_ne_nil (rows : List Row) (d qt : String)
    (h : groupDurations rows d qt ≠ []) :
    ∃ r ∈ rows, r.query_type = qt ∧ r.domain = d := by
  unfold groupDurations at h
  rw [ne_eq, List.filterMap_eq_nil_iff] at h
  push_neg at h
  obtain ⟨r, hr, hne⟩ := h
  have hmem : r ∈ rows := List.mem_of_mem_filter hr
  by_cases hc : (r.domain == d && r.query_type == qt) = true
  · obtain ⟨h1, h2⟩ := Bool.and_eq_true_iff.mp hc
    exact ⟨r, hmem, beq_iff_eq.mp h2, beq_iff_eq.mp h1⟩
  · rw [if_neg hc] at hne
    exact absurd rfl hne

theorem pdiv_some_some (x y : ℚ) :
    pdiv (some x) (some y) =
      if y ≠ 0 then PFloat.fin (x / y)
      else if 0 < x then PFloat.inf
      else if x < 0 then PFloat.ninf
      else PFloat.nan := rfl

theorem mem_mergedDurations (rows : List Row) (c : DomainComparison)
    (hc : c ∈ mergedDurations rows) :
    ∃ d rk, c = mkComparison rows d rk := by
  unfold mergedDurations at hc
  rw [List.mem_flatMap] at hc
  obtain ⟨d, _, hc2⟩ := hc
  rw [List.mem_map] at hc2
  obtain ⟨rk, _, rfl⟩ := hc2
  exact ⟨d, rk, rfl⟩

theorem mem_of_mem_filteredTable (rows : List Row) (c : DomainComparison)
    (hc : c ∈ filteredTable rows) :
    c ∈ mergedDurations rows ∧ ∃ q, c.duration_diff = some q ∧ 50 < q := by
  unfold filteredTable sortByMinHttpsDesc at hc
  rw [List.mem_mergeSort] at hc
  unfold diffFilter at hc
  rw [List.mem_filter] at hc
  obtain ⟨h1, h2⟩ := hc
  refine ⟨h1, ?_⟩
  cases hd : c.duration_diff with
  | none => rw [hd] at h2; cases h2
  | some q =>
    rw [hd] at h2
    exact ⟨q, rfl, of_decide_eq_true h2⟩

/-! Claim theorems. -/

/-- C3 counterexample: the payload `"abc"` decodes to a JSON string — a
truthy non-list value — yet `parse_answers` returns it unchanged (length
3, not the empty sequence), and a record carrying it with
`rcode == NOERROR` has `has_valid_answer` true. This refutes the claim
that every non-list decode yields the empty sequence. -/
theorem parse_answers_truthy_nonlist_cex :
    json_loads "\x22abc\x22" = some (Json.str "abc") ∧
    (Json.str "abc").isArr = false ∧
    parse_answers "\x22abc\x22" = Json.str "abc" ∧
    pyLen (parse_answers "\x22abc\x22") = some 3 ∧
    has_valid_answerE c3Row = some true :=
  ⟨rfl, rfl, rfl, rfl, by decide⟩

/-- C3 (amended): `parse_answers raw` is the empty sequence exactly when
`raw` fails to decode or decodes to a Python-falsy value (`null`,
`false`, `0`, `""`, `[]`, or an empty object); a truthy decode — list or
not — is returned unchanged. -/
theorem parse_answers_some (raw : String) (v : Json) (h : json_loads raw = some v) :
    parse_answers raw = if pyTruthy v then v else Json.arr [] := by
  unfold parse_answers
  rw [h]

theorem parse_answers_none_of_undecodable (raw : String) (h : json_loads raw = none) :
    parse_answers raw = Json.arr [] := by
  unfold parse_answers
  rw [h]

theorem parse_answers_empty_iff (raw : String) :
    (parse_answers raw = Json.arr [] ↔
      json_loads raw = none ∨ ∃ v, json_loads raw = some v ∧ pyTruthy v = false) ∧
    (∀ v, json_loads raw = some v → pyTruthy v = true → parse_answers raw = v) := by
  constructor
  · cases hl : json_loads raw with
    | none =>
      rw [parse_answers_none_of_undecodable raw hl]
      simp
    | some v =>
      rw [parse_answers_some raw v hl]
      cases ht : pyTruthy v with
      | true =>
        rw [if_pos rfl]
        constructor
        · intro h
          subst h
          exact absurd ht (by decide)
        · rintro (h | ⟨v2, hv2, htf⟩)
          · cases h
          · obtain rfl : v = v2 := Option.some.inj hv2
            rw [ht] at htf
            cases htf
      | false =>
        rw [if_neg (by decide)]
        exact ⟨fun _ => Or.inr ⟨v, rfl, ht⟩, fun _ => rfl⟩
  · intro v hv htv
    rw [parse_answers_some raw v hv, if_pos htv]

/-- C3 witness: the amended theorem applied at the payload `1`, a truthy
non-list decode, which parse returns unchanged. -/
theorem parse_answers_empty_iff_witness : parse_answers "1" = Json.num 1 :=
  (parse_answers_empty_iff "1").2 (Json.num 1) (by with_unfolding_all rfl)
    (by with_unfolding_all decide)

/-- C4 counterexample: a missing (NaN) `answers` cell makes `json.loads`
raise `TypeError`, which the `except json.JSONDecodeError` clause does
not catch — parsing does raise to the caller on a non-string value,
refuting totality over absent/non-string values. -/
theorem parse_answers_cell_nan_raises :
    parse_answers_cell Cell.nan = Except.error PyErr.typeError := rfl

/-- C4 (amended): on every string-valued `answers` cell, parsing never
raises: any decode failure is caught and yields the empty sequence. -/
theorem parse_answers_cell_ok_on_strings (c : Cell) (h : ∃ s, c = Cell.str s) :
    ∃ v, parse_answers_cell c = Except.ok v := by
  obtain ⟨s, rfl⟩ := h
  exact ⟨parse_answers s, rfl⟩

/-- C4 witness: the amended theorem applied to the malformed string
payload, on which parsing still returns normally. -/
theorem parse_answers_cell_ok_on_strings_witness :
    ∃ v, parse_answers_cell (Cell.str "\x7bnot json") = Except.ok v :=
  parse_answers_cell_ok_on_strings (Cell.str "\x7bnot json") ⟨_, rfl⟩

/-- C1: the source computes the per-(domain, query_type) statistics over
all `A`/`HTTPS` records, not only the successful ones — the `has_answer`
column computed on line 42 (whose comments state it identifies
successful queries) is never consulted by the groupby on line 45. On an
input where domain `d` has one successful `A` measurement (10 ms) and
two SERVFAIL/empty-answer ones (1000 ms, 2000 ms), the code's median is
1000 ms, while the success-only median required by the claim is 10 ms. -/
theorem domainStats_include_unsuccessful_records :
    has_valid_answerE c1Bad1 = some false ∧
    has_valid_answerE c1Bad2 = some false ∧
    pyMedian (groupDurations c1Rows "d" "A") = some 1000 ∧
    pyMedian (specSuccessfulDurations c1Rows "d" "A") = some 10 ∧
    tableRuns c1Rows = true := by
  refine ⟨by decide, by decide, ?_, ?_, by decide⟩ <;> with_unfolding_all decide

/-- C2 counterexample: a domain whose only HTTPS record has
`rcode = SERVFAIL` but a non-`'[]'` answers payload is counted both in
`total_https_support_count` and in the `ech` unique-domain set, refuting
the claim that the shared 4.2 predicate (which requires `NOERROR`)
governs the reducer. -/
theorem reducer_counts_rcode_failure_cex :
    c2Row.rcode = "SERVFAIL" ∧
    total_unique_domains_with_https_rr [c2Row] = 1 ∧
    paramDomainSets [c2Row] =
      .ok [("alpn", []), ("ipv4hint", []), ("ipv6hint", []), ("ech", ["d"])] :=
  ⟨rfl, rfl, rfl⟩

/-- C2 (amended): the reducer counts a domain toward
`total_https_support_count` iff some HTTPS record for it has a raw
`answers` string different from the literal `'[]'` — no `rcode` check
and no parse-success check; and a domain enters a recognized parameter's
set only if it has such a record (whose payload additionally parses and
exhibits the parameter). -/
theorem reducer_counts_iff_answers_nonempty_string (rows : List Row) (d : String) :
    (d ∈ totalHttpsDomains rows ↔
      ∃ r ∈ rows, r.query_type = "HTTPS" ∧ r.answers ≠ "[]" ∧ r.domain = d) ∧
    (∀ sets p ds, paramDomainSets rows = .ok sets →
      p ∈ paramSetsInit.map (fun q => q.1) → getParamSet sets p = some ds →
      ∀ d2 ∈ ds, ∃ r ∈ rows, r.query_type = "HTTPS" ∧ r.answers ≠ "[]" ∧
        (∃ ps, rowParams r = .ok ps ∧ p ∈ ps) ∧ r.domain = d2) := by
  constructor
  · unfold totalHttpsDomains supportRows httpsRows has_answer_ua
    rw [mem_dedupKeepFirst, List.mem_map]
    constructor
    · rintro ⟨r, hr, rfl⟩
      rw [List.mem_filter] at hr
      obtain ⟨hr1, hr2⟩ := hr
      rw [List.mem_filter] at hr1
      exact ⟨r, hr1.1, beq_iff_eq.mp hr1.2, by simpa using hr2, rfl⟩
    · rintro ⟨r, hr, hqt, hans, rfl⟩
      refine ⟨r, ?_, rfl⟩
      rw [List.mem_filter]
      refine ⟨?_, by simpa using hans⟩
      rw [List.mem_filter]
      exact ⟨hr, beq_iff_eq.mpr hqt⟩
  · intro sets p ds h hp hds d2 hd2
    obtain ⟨ds2, hds2, hmem, _⟩ :=
      foldlM_processRow_spec (supportRows rows) paramSetsInit sets h p []
        (getParamSet_init_of_mem p hp)
    rw [hds] at hds2
    obtain rfl : ds = ds2 := Option.some.inj hds2
    rcases (hmem d2).mp hd2 with h0 | ⟨r, hr, ps, hps, hpps, hdom⟩
    · cases h0
    · unfold supportRows httpsRows has_answer_ua at hr
      rw [List.mem_filter] at hr
      obtain ⟨hr1, hr2⟩ := hr
      rw [List.mem_filter] at hr1
      exact ⟨r, hr1.1, beq_iff_eq.mp hr1.2, by simpa using hr2, ⟨ps, hps, hpps⟩, hdom⟩

/-- C2 witness: the amended theorem applied to the single-record input
`[c9Row]`, showing the `ech` entry's only domain is backed by an HTTPS
record with a non-`'[]'` answers string. -/
theorem reducer_counts_iff_answers_nonempty_string_witness :
    ∃ r ∈ [c9Row], r.query_type = "HTTPS" ∧ r.answers ≠ "[]" ∧
      (∃ ps, rowParams r = .ok ps ∧ "ech" ∈ ps) ∧ r.domain = "x" :=
  (reducer_counts_iff_answers_nonempty_string [c9Row] "x").2 c9Sets "ech" ["x"]
    rfl (by decide) rfl "x" (by decide)

/-- C5 counterexample: on an input where domain `a` has only an `A`
record and domain `b` only an `HTTPS` record, `merged_durations` still
contains a comparison row for each (with NaN statistics for the missing
side), refuting the claim that a domain with stats for only one query
type produces no DomainComparison row. -/
theorem mergedDurations_one_sided_domain_cex :
    (mergedDurations c5Rows).map (fun c => c.domain) = ["a", "b"] ∧
    groupDurations c5Rows "a" "HTTPS" = [] ∧
    groupDurations c5Rows "b" "A" = [] ∧
    tableRuns c5Rows = true := by
  with_unfolding_all decide

/-- C5 (amended): comparison rows for one-sided domains carry a NaN
`duration_diff` and are removed by the strict `> 50` filter, so every
domain of the final filtered table has at least one `A` and at least one
`HTTPS` record — the final output's domain set is contained in the
inner join. -/
theorem filteredTable_domains_inner_join (rows : List Row)
    (_hruns : tableRuns rows = true) (d : String)
    (hd : d ∈ (filteredTable rows).map (fun c => c.domain)) :
    (∃ r ∈ rows, r.query_type = "A" ∧ r.domain = d) ∧
      (∃ r ∈ rows, r.query_type = "HTTPS" ∧ r.domain = d) := by
  rw [List.mem_map] at hd
  obtain ⟨c, hc, hcd⟩ := hd
  obtain ⟨hmem, q, hdiff, _⟩ := mem_of_mem_filteredTable rows c hc
  obtain ⟨d2, rk, rfl⟩ := mem_mergedDurations rows c hmem
  have hd2 : d2 = d := hcd
  subst hd2
  have hdiff2 : optSub (pyMedian (groupDurations rows d2 "HTTPS"))
      (pyMedian (groupDurations rows d2 "A")) = some q := hdiff
  cases hH : pyMedian (groupDurations rows d2 "HTTPS") with
  | none =>
    rw [hH] at hdiff2
    cases hA : pyMedian (groupDurations rows d2 "A") with
    | none => rw [hA] at hdiff2; cases hdiff2
    | some qa => rw [hA] at hdiff2; cases hdiff2
  | some qh =>
    cases hA : pyMedian (groupDurations rows d2 "A") with
    | none => rw [hH, hA] at hdiff2; cases hdiff2
    | some qa =>
      obtain ⟨rA, hrA, hqA, hdA⟩ := exists_row_of_groupDurations_ne_nil rows d2 "A"
        (pyMedian_some_ne_nil _ qa hA)
      obtain ⟨rH, hrH, hqH, hdH⟩ := exists_row_of_groupDurations_ne_nil rows d2 "HTTPS"
        (pyMedian_some_ne_nil _ qh hH)
      exact ⟨⟨rA, hrA, hqA, hdA⟩, ⟨rH, hrH, hqH, hdH⟩⟩

/-- C5 witness: the amended theorem applied to the two-record input
`cwRows`, whose surviving domain `w` indeed has records of both types. -/
theorem filteredTable_domains_inner_join_witness :
    (∃ r ∈ cwRows, r.query_type = "A" ∧ r.domain = "w") ∧
      (∃ r ∈ cwRows, r.query_type = "HTTPS" ∧ r.domain = "w") :=
  filteredTable_domains_inner_join cwRows (by decide) "w"
    (by with_unfolding_all decide)

/-- C6 counterexample: a domain with `median_A = 0` and `median_HTTPS =
100` passes the `duration_diff > 50` filter and appears in the final
table with `ratio = +infinity` — the produced output can contain an
infinite ratio, refuting the claim. -/
theorem filteredTable_infinite_ratio_cex :
    (filteredTable c6Rows).map (fun c => c.ratio) = [PFloat.inf] ∧
    (filteredTable c6Rows).map (fun c => c.median_A) = [some 0] ∧
    tableRuns c6Rows = true := by
  with_unfolding_all decide

/-- C6 (amended): rows are excluded only by the `duration_diff > 50`
filter; a surviving row with `median_A = 0` has `ratio = +infinity`
(not NaN), and no surviving row has a NaN or negative-infinite ratio. -/
theorem filteredTable_ratio_no_nan (rows : List Row) (c : DomainComparison)
    (hc : c ∈ filteredTable rows) :
    c.ratio ≠ PFloat.nan ∧ c.ratio ≠ PFloat.ninf ∧
      (c.median_A = some 0 → c.ratio = PFloat.inf) := by
  obtain ⟨hmem, q, hdiff, hq50⟩ := mem_of_mem_filteredTable rows c hc
  obtain ⟨d, rk, rfl⟩ := mem_mergedDurations rows c hmem
  have hdiff2 : optSub (pyMedian (groupDurations rows d "HTTPS"))
      (pyMedian (groupDurations rows d "A")) = some q := hdiff
  have hratio : (mkComparison rows d rk).ratio =
      pdiv (pyMedian (groupDurations rows d "HTTPS"))
        (pyMedian (groupDurations rows d "A")) := rfl
  have hmedA : (mkComparison rows d rk).median_A =
      pyMedian (groupDurations rows d "A") := rfl
  cases hH : pyMedian (groupDurations rows d "HTTPS") with
  | none =>
    rw [hH] at hdiff2
    cases hA : pyMedian (groupDurations rows d "A") with
    | none => rw [hA] at hdiff2; cases hdiff2
    | some qa => rw [hA] at hdiff2; cases hdiff2
  | some qh =>
    cases hA : pyMedian (groupDurations rows d "A") with
    | none => rw [hH, hA] at hdiff2; cases hdiff2
    | some qa =>
      rw [hH, hA] at hdiff2
      obtain hq : qh - qa = q := Option.some.inj hdiff2
      rw [hratio, hmedA, hH, hA]
      by_cases hza : qa = 0
      · subst hza
        have hqh : 0 < qh := by
          have : (50 : ℚ) < qh - 0 := hq ▸ hq50
          linarith
        rw [pdiv_some_some, if_neg (by simp), if_pos hqh]
        exact ⟨fun h => PFloat.noConfusion h, fun h => PFloat.noConfusion h, fun _ => rfl⟩
      · rw [pdiv_some_some, if_pos hza]
        exact ⟨fun h => PFloat.noConfusion h, fun h => PFloat.noConfusion h,
          fun h0 => absurd (Option.some.inj h0) hza⟩

/-- C6 witness: the amended theorem applied to the comparison row the
pipeline produces for `cwRows` (finite ratio 10, median_A nonzero). -/
theorem filteredTable_ratio_no_nan_witness :
    cwComparison.ratio ≠ PFloat.nan ∧ cwComparison.ratio ≠ PFloat.ninf ∧
      (cwComparison.median_A = some 0 → cwComparison.ratio = PFloat.inf) :=
  filteredTable_ratio_no_nan cwRows cwComparison (by with_unfolding_all decide)

/-- C9: feature-usage counting deduplicates by domain — each recognized
parameter's domain set is duplicate-free, and feeding every record twice
(two identical datasets) leaves the unique-domain count unchanged. -/
theorem param_unique_domain_count_dedup (rows : List Row)
    (sets : List (String × List String)) (p : String)
    (h : paramDomainSets rows = .ok sets)
    (hp : p ∈ paramSetsInit.map (fun q => q.1)) :
    ∃ ds, getParamSet sets p = some ds ∧ ds.Nodup ∧
      ∃ sets2 ds2, paramDomainSets (rows ++ rows) = .ok sets2 ∧
        getParamSet sets2 p = some ds2 ∧ ds2.length = ds.length := by
  have hinit := getParamSet_init_of_mem p hp
  obtain ⟨ds, hds, hmem, hnd⟩ :=
    foldlM_processRow_spec (supportRows rows) paramSetsInit sets h p [] hinit
  have hdsnd : ds.Nodup := hnd List.nodup_nil
  have hallok := foldlM_processRow_all_ok (supportRows rows) paramSetsInit sets h
  have hsupp : supportRows (rows ++ rows) = supportRows rows ++ supportRows rows := by
    unfold supportRows httpsRows
    rw [List.filter_append, List.filter_append]
  have hallok2 : ∀ r ∈ supportRows (rows ++ rows), ∃ ps, rowParams r = .ok ps := by
    rw [hsupp]
    intro r hr
    rcases List.mem_append.mp hr with h1 | h1 <;> exact hallok r h1
  obtain ⟨sets2, hsets2⟩ :=
    foldlM_processRow_total (supportRows (rows ++ rows)) hallok2 paramSetsInit
  obtain ⟨ds2, hds2, hmem2, hnd2⟩ :=
    foldlM_processRow_spec (supportRows (rows ++ rows)) paramSetsInit sets2 hsets2 p [] hinit
  refine ⟨ds, hds, hdsnd, sets2, ds2, hsets2, hds2, ?_⟩
  have hperm : ds2.Perm ds := by
    rw [List.perm_ext_iff_of_nodup (hnd2 List.nodup_nil) hdsnd]
    intro a
    rw [hmem2 a, hmem a]
    constructor
    · rintro (h0 | ⟨r, hr, hrest⟩)
      · exact Or.inl h0
      · rw [hsupp] at hr
        rcases List.mem_append.mp hr with h1 | h1 <;> exact Or.inr ⟨r, h1, hrest⟩
    · rintro (h0 | ⟨r, hr, hrest⟩)
      · exact Or.inl h0
      · refine Or.inr ⟨r, ?_, hrest⟩
        rw [hsupp]
        exact List.mem_append.mpr (Or.inl hr)
  exact hperm.length_eq

/-- C9 witness: the theorem applied to the one-record input `[c9Row]`,
whose `ech` set is `["x"]` and stays of size 1 when the dataset is
ingested twice. -/
theorem param_unique_domain_count_dedup_witness :
    ∃ ds, getParamSet c9Sets "ech" = some ds ∧ ds.Nodup ∧
      ∃ sets2 ds2, paramDomainSets ([c9Row] ++ [c9Row]) = .ok sets2 ∧
        getParamSet sets2 "ech" = some ds2 ∧ ds2.length = ds.length :=
  param_unique_domain_count_dedup [c9Row] c9Sets "ech" rfl (by decide)

/-- C10: every recognized parameter's unique-domain count is at most
`total_https_support_count` — each counted domain is backed by an HTTPS
row with a non-`'[]'` answers string and so belongs to the total's
domain set, making the synthetic total entry a maximum of the output. -/
theorem param_count_le_total_https_support (rows : List Row)
    (sets : List (String × List String)) (p : String) (ds : List String)
    (h : paramDomainSets rows = .ok sets)
    (hp : p ∈ paramSetsInit.map (fun q => q.1))
    (hds : getParamSet sets p = some ds) :
    ds.length ≤ total_unique_domains_with_https_rr rows := by
  obtain ⟨ds2, hds2, hmem, hnd⟩ :=
    foldlM_processRow_spec (supportRows rows) paramSetsInit sets h p []
      (getParamSet_init_of_mem p hp)
  rw [hds] at hds2
  obtain rfl : ds = ds2 := Option.some.inj hds2
  have hdsnd : ds.Nodup := hnd List.nodup_nil
  have hsub : ds ⊆ totalHttpsDomains rows := by
    intro a ha
    rcases (hmem a).mp ha with h0 | ⟨r, hr, _, _, _, hdom⟩
    · cases h0
    · unfold totalHttpsDomains
      rw [mem_dedupKeepFirst, List.mem_map]
      exact ⟨r, hr, hdom⟩
  exact (List.subperm_of_subset hdsnd hsub).length_le

/-- C10 witness: the theorem applied at `[c9Row]`, whose `ech` count 1
is bounded by the total support count 1. -/
theorem param_count_le_total_https_support_witness :
    (["x"] : List String).length ≤ total_unique_domains_with_https_rr [c9Row] :=
  param_count_le_total_https_support [c9Row] c9Sets "ech" ["x"] rfl (by decide) rfl

end EchReport
